import Mathlib

/-!
Verification of the syndrome decoder and error-injection helper of the
9-qubit Shor code script (`Atharva_Shor_Code.py`).

The decoder `interpret_syndrome_eigenvalues` is a pure function from an
8-element list of syndrome bits to a classification tuple; it is embedded
here over `List Int` (Python ints), returning `String × Option Nat`
mirroring the Python tuples `('X', q)`, `('Z', q)`, `('I', None)`.
`add_error` appends a Pauli gate to a circuit, embedded as a gate list.
-/

set_option maxRecDepth 100000

namespace ShorCode

/-- Step 1 of the decoder: `eigenvalues = [1 if bit == 0 else -1 for bit in syndrome_bits]`. -/
def eigenvalues (syndrome_bits : List Int) : List Int :=
  syndrome_bits.map (fun bit => if bit = 0 then 1 else -1)

/-- One iteration of the bit-flip detection loop
(`for block in range(3): s1, s2 = eigenvalues[block*2], eigenvalues[block*2+1]; ...`),
returning `some result` when the block's branch fires (Python `return`) and
`none` when the loop continues. Out-of-range access defaults to `0`
(never an eigenvalue), unreachable on length-8 input. -/
def bitFlipCheck (e : List Int) (block : Nat) : Option (String × Option Nat) :=
  let s1 := e.getD (block * 2) 0
  let s2 := e.getD (block * 2 + 1) 0
  if s1 = -1 ∧ s2 = 1 then some ("X", some (block * 3))
  else if s1 = -1 ∧ s2 = -1 then some ("X", some (block * 3 + 1))
  else if s1 = 1 ∧ s2 = -1 then some ("X", some (block * 3 + 2))
  else none

/-- `ShorCode.interpret_syndrome_eigenvalues`: maps syndrome bits to
`(error_type, error_qubit)`.  The bit-flip loop over blocks 0,1,2 returns at
the first firing branch; otherwise the phase eigenvalues `e[6], e[7]` are
consulted; otherwise `('I', None)`. -/
def interpret_syndrome_eigenvalues (syndrome_bits : List Int) : String × Option Nat :=
  let e := eigenvalues syndrome_bits
  match (List.range 3).findSome? (fun block => bitFlipCheck e block) with
  | some r => r
  | none =>
    let s_phase1 := e.getD 6 0
    let s_phase2 := e.getD 7 0
    if s_phase1 = -1 ∧ s_phase2 = 1 then ("Z", some 0)
    else if s_phase1 = -1 ∧ s_phase2 = -1 then ("Z", some 3)
    else if s_phase1 = 1 ∧ s_phase2 = -1 then ("Z", some 6)
    else ("I", none)

/-- The gate kinds the script applies to circuits. -/
inductive Gate
  | h (qubit : Nat)
  | x (qubit : Nat)
  | z (qubit : Nat)
  | cx (control target : Nat)
  | cz (control target : Nat)
  | measure (qubit clbit : Nat)
  | reset (qubit : Nat)
  deriving DecidableEq, Repr

/-- A circuit is its gate sequence; the script only ever appends gates. -/
def Circuit := List Gate

/-- `ShorCode.add_error`: appends one X gate if `error_type == 'X'`,
one Z gate if `error_type == 'Z'`, and otherwise returns the circuit
unchanged. -/
def add_error (circuit : List Gate) (error_type : String) (qubit : Nat) : List Gate :=
  if error_type = "X" then circuit ++ [Gate.x qubit]
  else if error_type = "Z" then circuit ++ [Gate.z qubit]
  else circuit

/-- All classification values the spec allows: `('I', None)`, `('X', q)` with
`q ∈ [0,8]`, `('Z', q)` with `q ∈ {0,3,6}`. -/
def validClassifications : List (String × Option Nat) :=
  [("I", none),
   ("X", some 0), ("X", some 1), ("X", some 2), ("X", some 3), ("X", some 4),
   ("X", some 5), ("X", some 6), ("X", some 7), ("X", some 8),
   ("Z", some 0), ("Z", some 3), ("Z", some 6)]

/-- All lists over `{0, 1} : Int` of length `n`, for finite enumeration of
syndrome vectors. -/
def allBitVecs : Nat → List (List Int)
  | 0 => [[]]
  | n + 1 => (allBitVecs n).map (fun l => 0 :: l) ++ (allBitVecs n).map (fun l => 1 :: l)

lemma mem_allBitVecs : ∀ (n : Nat) (s : List Int),
    s.length = n → (∀ b ∈ s, b = 0 ∨ b = 1) → s ∈ allBitVecs n
  | 0, [], _, _ => by simp [allBitVecs]
  | 0, _ :: _, hlen, _ => by simp at hlen
  | _ + 1, [], hlen, _ => by simp at hlen
  | n + 1, b :: t, hlen, hb => by
    have ht : t ∈ allBitVecs n :=
      mem_allBitVecs n t (by simpa using hlen)
        (fun x hx => hb x (List.mem_cons_of_mem _ hx))
    have hbb : b = 0 ∨ b = 1 := hb b (List.mem_cons_self _ _)
    simp only [allBitVecs, List.mem_append, List.mem_map]
    rcases hbb with rfl | rfl
    · exact Or.inl ⟨t, ht, rfl⟩
    · exact Or.inr ⟨t, ht, rfl⟩

lemma c1_enum : ∀ t ∈ allBitVecs 8, ∀ k, k < 3 →
    (∀ j < k, (eigenvalues t).getD (2 * j) 0 = 1 ∧ (eigenvalues t).getD (2 * j + 1) 0 = 1) →
    ((eigenvalues t).getD (2 * k) 0 = -1 ∧ (eigenvalues t).getD (2 * k + 1) 0 = 1 →
      interpret_syndrome_eigenvalues t = ("X", some (3 * k))) ∧
    ((eigenvalues t).getD (2 * k) 0 = -1 ∧ (eigenvalues t).getD (2 * k + 1) 0 = -1 →
      interpret_syndrome_eigenvalues t = ("X", some (3 * k + 1))) ∧
    ((eigenvalues t).getD (2 * k) 0 = 1 ∧ (eigenvalues t).getD (2 * k + 1) 0 = -1 →
      interpret_syndrome_eigenvalues t = ("X", some (3 * k + 2))) := by decide

/-- C1: for every syndrome vector in `{0,1}^8`, with eigenvalues
`e = 1 if bit == 0 else -1`, the first block `k` (scanning `k = 0, 1, 2`)
whose eigenvalue pair `(e[2k], e[2k+1])` is not `(+1,+1)` determines the
result regardless of all later blocks and of the phase bits 6-7:
`('X', 3k)` on `(-1,+1)`, `('X', 3k+1)` on `(-1,-1)`, `('X', 3k+2)` on
`(+1,-1)`. -/
theorem c1_bitflip_scan (s : List Int) (hlen : s.length = 8)
    (hbits : ∀ b ∈ s, b = 0 ∨ b = 1) (k : Nat) (hk : k < 3)
    (hprev : ∀ j < k,
      (eigenvalues s).getD (2 * j) 0 = 1 ∧ (eigenvalues s).getD (2 * j + 1) 0 = 1) :
    ((eigenvalues s).getD (2 * k) 0 = -1 ∧ (eigenvalues s).getD (2 * k + 1) 0 = 1 →
      interpret_syndrome_eigenvalues s = ("X", some (3 * k))) ∧
    ((eigenvalues s).getD (2 * k) 0 = -1 ∧ (eigenvalues s).getD (2 * k + 1) 0 = -1 →
      interpret_syndrome_eigenvalues s = ("X", some (3 * k + 1))) ∧
    ((eigenvalues s).getD (2 * k) 0 = 1 ∧ (eigenvalues s).getD (2 * k + 1) 0 = -1 →
      interpret_syndrome_eigenvalues s = ("X", some (3 * k + 2))) :=
  c1_enum s (mem_allBitVecs 8 s hlen hbits) k hk hprev

/-- C1 witness: the syndrome `[0,0,1,0,0,0,1,1]` has block 0 trivial and
block 1 reading `(-1,+1)`, so the decoder returns `('X', 3)` even though the
phase bits 6-7 are set. -/
theorem c1_bitflip_scan_witness :
    interpret_syndrome_eigenvalues [0, 0, 1, 0, 0, 0, 1, 1] = ("X", some 3) :=
  (c1_bitflip_scan [0, 0, 1, 0, 0, 0, 1, 1] (by decide) (by decide) 1 (by decide)
    (by decide)).1 (by decide)

lemma c2_enum : ∀ t ∈ allBitVecs 8, (∀ i < 6, t.getD i 0 = 0) →
    ((eigenvalues t).getD 6 0 = -1 ∧ (eigenvalues t).getD 7 0 = 1 →
      interpret_syndrome_eigenvalues t = ("Z", some 0)) ∧
    ((eigenvalues t).getD 6 0 = -1 ∧ (eigenvalues t).getD 7 0 = -1 →
      interpret_syndrome_eigenvalues t = ("Z", some 3)) ∧
    ((eigenvalues t).getD 6 0 = 1 ∧ (eigenvalues t).getD 7 0 = -1 →
      interpret_syndrome_eigenvalues t = ("Z", some 6)) ∧
    ((eigenvalues t).getD 6 0 = 1 ∧ (eigenvalues t).getD 7 0 = 1 →
      interpret_syndrome_eigenvalues t = ("I", none)) := by decide

/-- C2: for every syndrome vector in `{0,1}^8` whose bits 0-5 are all 0, the
decoder reads the phase eigenvalues `(p1, p2) = (e[6], e[7])` and returns
`('Z', 0)` on `(-1,+1)`, `('Z', 3)` on `(-1,-1)`, `('Z', 6)` on `(+1,-1)`,
and `('I', None)` on `(+1,+1)`. -/
theorem c2_phase_table (s : List Int) (hlen : s.length = 8)
    (hbits : ∀ b ∈ s, b = 0 ∨ b = 1) (hzero : ∀ i < 6, s.getD i 0 = 0) :
    ((eigenvalues s).getD 6 0 = -1 ∧ (eigenvalues s).getD 7 0 = 1 →
      interpret_syndrome_eigenvalues s = ("Z", some 0)) ∧
    ((eigenvalues s).getD 6 0 = -1 ∧ (eigenvalues s).getD 7 0 = -1 →
      interpret_syndrome_eigenvalues s = ("Z", some 3)) ∧
    ((eigenvalues s).getD 6 0 = 1 ∧ (eigenvalues s).getD 7 0 = -1 →
      interpret_syndrome_eigenvalues s = ("Z", some 6)) ∧
    ((eigenvalues s).getD 6 0 = 1 ∧ (eigenvalues s).getD 7 0 = 1 →
      interpret_syndrome_eigenvalues s = ("I", none)) :=
  c2_enum s (mem_allBitVecs 8 s hlen hbits) hzero

/-- C2 witness: the syndrome `[0,0,0,0,0,0,1,1]` (phase eigenvalues
`(-1,-1)`) decodes to `('Z', 3)`. -/
theorem c2_phase_table_witness :
    interpret_syndrome_eigenvalues [0, 0, 0, 0, 0, 0, 1, 1] = ("Z", some 3) :=
  (c2_phase_table [0, 0, 0, 0, 0, 0, 1, 1] (by decide) (by decide) (by decide)).2.1
    (by decide)

lemma c3_enum : ∀ t ∈ allBitVecs 8,
    interpret_syndrome_eigenvalues t ∈ validClassifications := by decide

/-- C3: over all 256 syndrome vectors in `{0,1}^8`, the decoder is total and
its result is always one of the allowed classifications: `('I', None)`,
`('X', q)` with `q ∈ [0,8]`, or `('Z', q)` with `q ∈ {0,3,6}`; no error is
ever signaled (the embedded function is total and returns a plain value). -/
theorem c3_total_classification (s : List Int) (hlen : s.length = 8)
    (hbits : ∀ b ∈ s, b = 0 ∨ b = 1) :
    interpret_syndrome_eigenvalues s ∈ validClassifications :=
  c3_enum s (mem_allBitVecs 8 s hlen hbits)

/-- C3 witness: concrete instantiation at the syndrome `[1,1,0,0,0,0,0,0]`. -/
theorem c3_total_classification_witness :
    interpret_syndrome_eigenvalues [1, 1, 0, 0, 0, 0, 0, 0] ∈ validClassifications :=
  c3_total_classification [1, 1, 0, 0, 0, 0, 0, 0] (by decide) (by decide)

/-- C4 counterexample: on the unique syndrome vector with bits 0-5 zero and
bits 6-7 equal to `[1,0]` (phase eigenvalues `(-1, 1)`), the decoder does NOT
return `('Z', 3)` as the claim states. -/
theorem c4_phase_scenario_counterexample :
    interpret_syndrome_eigenvalues [0, 0, 0, 0, 0, 0, 1, 0] ≠ ("Z", some 3) := by
  decide

/-- C4 amended: on the syndrome vector with bits 0-5 zero and bits 6-7 equal
to `[1,0]` (phase eigenvalues `(-1, 1)`), the decoder returns `('Z', 0)`,
the representative qubit of block 0, per its phase decision table. -/
theorem c4_phase_scenario_amended :
    interpret_syndrome_eigenvalues [0, 0, 0, 0, 0, 0, 1, 0] = ("Z", some 0) := by
  decide

/-- C5: the syndrome vector `[1,0,0,0,0,0,0,0]` decodes to `BitFlip(0)`,
i.e. `('X', 0)`. -/
theorem c5_bitflip_qubit0 :
    interpret_syndrome_eigenvalues [1, 0, 0, 0, 0, 0, 0, 0] = ("X", some 0) := by
  decide

/-- C6: the all-zero syndrome vector decodes to `NoError`, i.e. `('I', None)`. -/
theorem c6_all_zero_no_error :
    interpret_syndrome_eigenvalues [0, 0, 0, 0, 0, 0, 0, 0] = ("I", none) := by
  decide

/-- C7: the decoder is a deterministic pure function: two invocations on the
same syndrome vector in `{0,1}^8` return identical results (in this pure
embedding, definitional). -/
theorem c7_deterministic (s : List Int) (hlen : s.length = 8)
    (hbits : ∀ b ∈ s, b = 0 ∨ b = 1) :
    interpret_syndrome_eigenvalues s = interpret_syndrome_eigenvalues s := rfl

/-- C7 witness: concrete instantiation at the syndrome `[0,1,0,1,0,1,0,1]`. -/
theorem c7_deterministic_witness :
    interpret_syndrome_eigenvalues [0, 1, 0, 1, 0, 1, 0, 1] =
      interpret_syndrome_eigenvalues [0, 1, 0, 1, 0, 1, 0, 1] :=
  c7_deterministic [0, 1, 0, 1, 0, 1, 0, 1] (by decide) (by decide)

lemma c8_enum : ∀ t ∈ allBitVecs 8,
    ((interpret_syndrome_eigenvalues t).1 = "Z" → ∀ i < 6, t.getD i 0 = 0) ∧
    (interpret_syndrome_eigenvalues t = ("I", none) ↔ ∀ i < 8, t.getD i 0 = 0) := by
  decide

/-- C8: over `{0,1}^8`, the decoder returns a `('Z', _)` result only when
bits 0-5 are all 0, and it returns `('I', None)` if and only if all eight
bits are 0. -/
theorem c8_noerror_iff_zero (s : List Int) (hlen : s.length = 8)
    (hbits : ∀ b ∈ s, b = 0 ∨ b = 1) :
    ((interpret_syndrome_eigenvalues s).1 = "Z" → ∀ i < 6, s.getD i 0 = 0) ∧
    (interpret_syndrome_eigenvalues s = ("I", none) ↔ ∀ i < 8, s.getD i 0 = 0) :=
  c8_enum s (mem_allBitVecs 8 s hlen hbits)

/-- C8 witness: concrete instantiation at the syndrome `[0,0,0,0,0,0,1,0]`. -/
theorem c8_noerror_iff_zero_witness :
    ((interpret_syndrome_eigenvalues [0, 0, 0, 0, 0, 0, 1, 0]).1 = "Z" →
      ∀ i < 6, List.getD ([0, 0, 0, 0, 0, 0, 1, 0] : List Int) i 0 = 0) ∧
    (interpret_syndrome_eigenvalues [0, 0, 0, 0, 0, 0, 1, 0] = ("I", none) ↔
      ∀ i < 8, List.getD ([0, 0, 0, 0, 0, 0, 1, 0] : List Int) i 0 = 0) :=
  c8_noerror_iff_zero [0, 0, 0, 0, 0, 0, 1, 0] (by decide) (by decide)

lemma eigenvalues_map_norm (s : List Int) :
    eigenvalues (s.map (fun b => if b = 0 then b else 1)) = eigenvalues s := by
  unfold eigenvalues
  rw [List.map_map]
  refine List.map_congr_left (fun b _ => ?_)
  by_cases hb : b = 0 <;> simp [hb]

/-- C9: the decoder performs no validation of bit values: for every length-8
list of integers, replacing each nonzero element by 1 does not change the
result — a nonzero bit is treated exactly like 1 (eigenvalue −1), and the
function stays total (no error is raised). -/
theorem c9_nonzero_as_one (s : List Int) (hlen : s.length = 8) :
    interpret_syndrome_eigenvalues (s.map (fun b => if b = 0 then b else 1)) =
      interpret_syndrome_eigenvalues s := by
  simp only [interpret_syndrome_eigenvalues, eigenvalues_map_norm]

/-- C9 witness: concrete instantiation at `[5, 0, -2, 0, 0, 0, 0, 7]`. -/
theorem c9_nonzero_as_one_witness :
    interpret_syndrome_eigenvalues
        (List.map (fun b => if b = 0 then b else 1) [5, 0, -2, 0, 0, 0, 0, 7]) =
      interpret_syndrome_eigenvalues [5, 0, -2, 0, 0, 0, 0, 7] :=
  c9_nonzero_as_one [5, 0, -2, 0, 0, 0, 0, 7] (by decide)

/-- C10: `add_error` appends exactly one X gate when `error_type == 'X'`,
exactly one Z gate when `error_type == 'Z'`, and for any other value of
`error_type` returns the circuit unchanged — no gate appended, no error
signaled. -/
theorem c10_add_error_frame (circuit : List Gate) (error_type : String) (qubit : Nat) :
    (error_type = "X" → add_error circuit error_type qubit = circuit ++ [Gate.x qubit]) ∧
    (error_type = "Z" → add_error circuit error_type qubit = circuit ++ [Gate.z qubit]) ∧
    (error_type ≠ "X" → error_type ≠ "Z" → add_error circuit error_type qubit = circuit) := by
  refine ⟨fun h => ?_, fun h => ?_, fun h1 h2 => ?_⟩
  · subst h; simp [add_error]
  · subst h; simp [add_error]
  · simp [add_error, h1, h2]

/-- C10 witness: concrete instantiations for the `'X'`, `'Z'` and other
branches. -/
theorem c10_add_error_frame_witness :
    add_error [] "X" 2 = [Gate.x 2] ∧
    add_error [] "Z" 5 = [Gate.z 5] ∧
    add_error [Gate.h 0] "Y" 1 = [Gate.h 0] :=
  ⟨(c10_add_error_frame [] "X" 2).1 rfl,
   (c10_add_error_frame [] "Z" 5).2.1 rfl,
   (c10_add_error_frame [Gate.h 0] "Y" 1).2.2 (by decide) (by decide)⟩

end ShorCode
